import Mathlib

/-!
Verification development for the offline opening explorer
(`opening_explorer.py`): a position-indexed statistics engine that replays
space-separated move lines, aggregates outcome counts per FEN key in a
`defaultdict(Stats)`, pickles the resulting dict, and answers point queries.

The chess rules engine (`python-chess`) is an external collaborator of the
program; following the design notes we embed it as a concrete
move-application primitive on the SAN fragment exercised by the corpus
examples: plain pawn pushes (`e4`) and plain non-capturing piece moves
(`Nf3`), with path obstruction, king-safety filtering, disambiguation by
unique legal candidate, castling-right/en-passant/halfmove/fullmove
bookkeeping, and full-FEN rendering exactly as `chess.Board.fen()` produces
it (en-passant field shown only when a legal en-passant capture exists).
Any token outside the fragment is rejected, which models
`push_san` raising for it.
-/

inductive Color where
  | white
  | black
deriving DecidableEq, Repr

def Color.other : Color → Color
  | .white => .black
  | .black => .white

inductive PieceKind where
  | pawn
  | knight
  | bishop
  | rook
  | queen
  | king
deriving DecidableEq, Repr

/-- A piece is a colour together with a piece kind. -/
abbrev Piece := Color × PieceKind

/-- Piece placement: 64 squares, index `rank * 8 + file`, rank 0 = rank 1. -/
abbrev Placement := List (Option Piece)

/-- Read a square by integer coordinates; off-board reads are empty. -/
def sqGet (p : Placement) (f r : Int) : Option Piece :=
  if 0 ≤ f ∧ f < 8 ∧ 0 ≤ r ∧ r < 8 then
    List.getD p (r.toNat * 8 + f.toNat) none
  else none

def sqSet (p : Placement) (f r : Nat) (v : Option Piece) : Placement :=
  List.set p (r * 8 + f) v

def onBoard (f r : Int) : Bool :=
  decide (0 ≤ f ∧ f < 8 ∧ 0 ≤ r ∧ r < 8)

/-- First piece along a ray, fuel-bounded walk (a board is 8 wide). -/
def rayFirst (p : Placement) (f r df dr : Int) : Nat → Option Piece
  | 0 => none
  | n + 1 =>
    if onBoard (f + df) (r + dr) then
      match sqGet p (f + df) (r + dr) with
      | some pc => some pc
      | none => rayFirst p (f + df) (r + dr) df dr n
    else none

def knightOffsets : List (Int × Int) :=
  [(1, 2), (2, 1), (2, -1), (1, -2), (-1, -2), (-2, -1), (-2, 1), (-1, 2)]

def kingOffsets : List (Int × Int) :=
  [(1, 0), (1, 1), (0, 1), (-1, 1), (-1, 0), (-1, -1), (0, -1), (1, -1)]

def rookDirs : List (Int × Int) := [(1, 0), (-1, 0), (0, 1), (0, -1)]

def bishopDirs : List (Int × Int) := [(1, 1), (1, -1), (-1, 1), (-1, -1)]

/-- Is square `(f, r)` attacked by some piece of colour `c`? -/
def attacked (p : Placement) (c : Color) (f r : Int) : Bool :=
  let pawnDir : Int := match c with | .white => -1 | .black => 1
  (sqGet p (f - 1) (r + pawnDir) = some (c, .pawn)
      ∨ sqGet p (f + 1) (r + pawnDir) = some (c, .pawn)
    ∨ knightOffsets.any (fun o =>
        sqGet p (f + o.1) (r + o.2) = some (c, .knight))
    ∨ kingOffsets.any (fun o =>
        sqGet p (f + o.1) (r + o.2) = some (c, .king))
    ∨ rookDirs.any (fun o =>
        rayFirst p f r o.1 o.2 8 = some (c, .rook)
          ∨ rayFirst p f r o.1 o.2 8 = some (c, .queen))
    ∨ bishopDirs.any (fun o =>
        rayFirst p f r o.1 o.2 8 = some (c, .bishop)
          ∨ rayFirst p f r o.1 o.2 8 = some (c, .queen)) : Bool)

/-- Locate the king of colour `c` among the 64 squares. -/
def kingSquare (p : Placement) (c : Color) : Option (Nat × Nat) :=
  (List.range 64).findSome? (fun i =>
    if List.getD p i none = some (c, .king) then some (i % 8, i / 8) else none)

/-- Is the king of colour `c` in check? -/
def inCheck (p : Placement) (c : Color) : Bool :=
  match kingSquare p c with
  | some (f, r) => attacked p c.other (f : Int) (r : Int)
  | none => false

/-- Fuel-bounded walk towards a target square, checking emptiness of every
strictly intermediate square. -/
def pathClearAux (p : Placement) (df dr tf tr : Int) : Int → Int → Nat → Bool
  | _, _, 0 => true
  | f, r, n + 1 =>
    if f + df = tf ∧ r + dr = tr then true
    else
      match sqGet p (f + df) (r + dr) with
      | some _ => false
      | none => pathClearAux p df dr tf tr (f + df) (r + dr) n

/-- All squares strictly between source and target along a line are empty. -/
def pathClear (p : Placement) (sf sr tf tr : Int) : Bool :=
  pathClearAux p (tf - sf).sign (tr - sr).sign tf tr sf sr 8

/-- Geometry of a non-capturing move of kind `k` from `(sf, sr)` to
`(tf, tr)`: correct displacement and, for sliders, an unobstructed path. -/
def moveGeometry (p : Placement) (k : PieceKind) (sf sr tf tr : Int) : Bool :=
  let df := tf - sf
  let dr := tr - sr
  match k with
  | .knight => df * df + dr * dr = 5
  | .king => (df ≠ 0 ∨ dr ≠ 0) ∧ df * df ≤ 1 ∧ dr * dr ≤ 1
  | .rook => ((df = 0 ∧ dr ≠ 0) ∨ (dr = 0 ∧ df ≠ 0)) ∧ pathClear p sf sr tf tr
  | .bishop => df ≠ 0 ∧ df * df = dr * dr ∧ pathClear p sf sr tf tr
  | .queen =>
    (((df = 0 ∧ dr ≠ 0) ∨ (dr = 0 ∧ df ≠ 0)) ∨ (df ≠ 0 ∧ df * df = dr * dr))
      ∧ pathClear p sf sr tf tr
  | .pawn => false

/-- Full board state as `chess.Board` keeps it: placement, side to move,
castling rights, en-passant square of the last double push, halfmove clock
and fullmove number. -/
structure Board where
  placement : Placement
  turn : Color
  castleWK : Bool
  castleWQ : Bool
  castleBK : Bool
  castleBQ : Bool
  epSquare : Option (Nat × Nat)
  halfmove : Nat
  fullmove : Nat
deriving DecidableEq, Repr

def backRank (c : Color) : Placement :=
  [PieceKind.rook, .knight, .bishop, .queen, .king, .bishop, .knight,
    .rook].map (fun k => some (c, k))

def pawnRank (c : Color) : Placement :=
  List.replicate 8 (some (c, PieceKind.pawn))

/-- The standard initial position, as `chess.Board()`. -/
def Board.init : Board where
  placement :=
    backRank .white ++ pawnRank .white ++ List.replicate 32 none
      ++ pawnRank .black ++ backRank .black
  turn := .white
  castleWK := true
  castleWQ := true
  castleBK := true
  castleBQ := true
  epSquare := none
  halfmove := 0
  fullmove := 1

/-- Castling-right clearing for a touched square, as `push` clears the
rights bit of a rook home square that a move leaves or enters. -/
def clearTouched (sq : Nat × Nat) (b : Board) : Board :=
  { b with
    castleWK := b.castleWK && !(sq = (7, 0) : Bool)
    castleWQ := b.castleWQ && !(sq = (0, 0) : Bool)
    castleBK := b.castleBK && !(sq = (7, 7) : Bool)
    castleBQ := b.castleBQ && !(sq = (0, 7) : Bool) }

/-- Apply a quiet (non-capturing) move of a `k`-piece of the side to move
from `(sf, sr)` to `(tf, tr)`, with the bookkeeping `chess.Board.push`
performs: moved piece, castling rights of touched squares and of a moved
king, en-passant square of a double pawn push, halfmove clock (reset on a
pawn move), fullmove number (incremented after Black), and turn flip. -/
def mkMove (b : Board) (k : PieceKind) (sf sr tf tr : Nat)
    (dbl : Bool) : Board :=
  let p' := sqSet (sqSet b.placement sf sr none) tf tr (some (b.turn, k))
  let b' := clearTouched (tf, tr) (clearTouched (sf, sr) b)
  { b' with
    placement := p'
    turn := b.turn.other
    castleWK := b'.castleWK && !(k = .king ∧ b.turn = .white : Bool)
    castleWQ := b'.castleWQ && !(k = .king ∧ b.turn = .white : Bool)
    castleBK := b'.castleBK && !(k = .king ∧ b.turn = .black : Bool)
    castleBQ := b'.castleBQ && !(k = .king ∧ b.turn = .black : Bool)
    epSquare := if dbl then some (tf, (sr + tr) / 2) else none
    halfmove := if k = .pawn then 0 else b.halfmove + 1
    fullmove := if b.turn = .black then b.fullmove + 1 else b.fullmove }

/-- A plain pawn push in SAN (`e4` style): one square forward if the pawn
stands just behind the empty target, otherwise a double push from the home
rank over an empty intermediate square; the move must not leave the mover's
own king in check. -/
def pawnPush (b : Board) (tf tr : Nat) : Option Board :=
  let step : Int := match b.turn with | .white => 1 | .black => -1
  let src1 : Int := (tr : Int) - step
  let go (sr : Nat) (dbl : Bool) : Option Board :=
    let b' := mkMove b .pawn tf sr tf tr dbl
    if inCheck b'.placement b.turn then none else some b'
  if sqGet b.placement (tf : Int) (tr : Int) ≠ none then none
  else if sqGet b.placement (tf : Int) src1 = some (b.turn, .pawn) then
    go src1.toNat false
  else
    match b.turn with
    | .white =>
      if tr = 3 ∧ sqGet b.placement (tf : Int) 1 = some (b.turn, .pawn)
          ∧ sqGet b.placement (tf : Int) 2 = none then
        go 1 true
      else none
    | .black =>
      if tr = 4 ∧ sqGet b.placement (tf : Int) 6 = some (b.turn, .pawn)
          ∧ sqGet b.placement (tf : Int) 5 = none then
        go 6 true
      else none

/-- A plain non-capturing piece move in SAN (`Nf3` style): the target must
be empty, and among the side-to-move pieces of that kind able to reach it
(geometry, unobstructed path, own king safe afterwards) there must be
exactly one, as SAN without a disambiguator requires. -/
def pieceMove (b : Board) (k : PieceKind) (tf tr : Nat) : Option Board :=
  if sqGet b.placement (tf : Int) (tr : Int) ≠ none then none
  else
    let cands := (List.range 64).filterMap (fun i =>
      let sf : Nat := i % 8
      let sr : Nat := i / 8
      if List.getD b.placement i none = some (b.turn, k)
          ∧ moveGeometry b.placement k (sf : Int) (sr : Int)
              (tf : Int) (tr : Int) then
        let b' := mkMove b k sf sr tf tr false
        if inCheck b'.placement b.turn then none else some b'
      else none)
    match cands with
    | [b'] => some b'
    | _ => none

def fileOfChar (c : Char) : Option Nat :=
  if 'a' ≤ c ∧ c ≤ 'h' then some (c.toNat - 97) else none

def rankOfChar (c : Char) : Option Nat :=
  if '1' ≤ c ∧ c ≤ '8' then some (c.toNat - 49) else none

def kindOfChar (c : Char) : Option PieceKind :=
  if c = 'N' then some .knight
  else if c = 'B' then some .bishop
  else if c = 'R' then some .rook
  else if c = 'Q' then some .queen
  else if c = 'K' then some .king
  else none

/-- The move-application primitive: models `board.push_san(token)` on the
SAN fragment of plain pawn pushes and plain non-capturing piece moves;
`none` models the exception `push_san` raises for an illegal or
unparseable token. -/
def pushSan (b : Board) (san : String) : Option Board :=
  match san.toList with
  | [fc, rc] => do
    let tf ← fileOfChar fc
    let tr ← rankOfChar rc
    pawnPush b tf tr
  | [pc, fc, rc] => do
    let k ← kindOfChar pc
    let tf ← fileOfChar fc
    let tr ← rankOfChar rc
    pieceMove b k tf tr
  | _ => none

def pieceChar : Piece → Char
  | (.white, .pawn) => 'P'
  | (.white, .knight) => 'N'
  | (.white, .bishop) => 'B'
  | (.white, .rook) => 'R'
  | (.white, .queen) => 'Q'
  | (.white, .king) => 'K'
  | (.black, .pawn) => 'p'
  | (.black, .knight) => 'n'
  | (.black, .bishop) => 'b'
  | (.black, .rook) => 'r'
  | (.black, .queen) => 'q'
  | (.black, .king) => 'k'

def digitChar (n : Nat) : Char := Char.ofNat (48 + n)

/-- One FEN rank: pieces as letters, runs of empty squares as a digit. -/
def rowFen (cells : List (Option Piece)) : String :=
  let step := cells.foldl
    (fun (acc : String × Nat) c =>
      match c with
      | some pc =>
        ((if acc.2 = 0 then acc.1 else acc.1.push (digitChar acc.2)).push
          (pieceChar pc), 0)
      | none => (acc.1, acc.2 + 1))
    ("", 0)
  if step.2 = 0 then step.1 else step.1.push (digitChar step.2)

/-- The piece-placement field of a FEN: ranks 8 down to 1, `/`-separated. -/
def placementFen (p : Placement) : String :=
  String.intercalate "/" (((List.range 8).reverse).map (fun r =>
    rowFen ((List.range 8).map (fun f => List.getD p (r * 8 + f) none))))

def squareName (f r : Nat) : String :=
  String.mk [Char.ofNat (97 + f), Char.ofNat (49 + r)]

def castlingFen (b : Board) : String :=
  let s := (if b.castleWK then "K" else "") ++ (if b.castleWQ then "Q" else "")
    ++ (if b.castleBK then "k" else "") ++ (if b.castleBQ then "q" else "")
  if s = "" then "-" else s

/-- Can the side to move legally capture en passant onto target `(f, r)`
with a pawn coming from file `sf` (the captured pawn stands beside the
capturer, on the capturer's rank `capRank`)? -/
def epLegalFrom (b : Board) (sf : Int) (f r : Nat) (capRank : Int) : Bool :=
  if onBoard sf capRank then
    if sqGet b.placement sf capRank = some (b.turn, .pawn) then
      let p' := sqSet (sqSet (sqSet b.placement sf.toNat capRank.toNat none)
        f capRank.toNat none) f r (some (b.turn, .pawn))
      !inCheck p' b.turn
    else false
  else false

/-- Does a fully legal en-passant capture exist?  `chess.Board.fen()` shows
the en-passant square only in that case. -/
def hasLegalEp (b : Board) : Bool :=
  match b.epSquare with
  | none => false
  | some (f, r) =>
    let capRank : Int :=
      match b.turn with | .white => (r : Int) - 1 | .black => (r : Int) + 1
    epLegalFrom b ((f : Int) - 1) f r capRank
      || epLegalFrom b ((f : Int) + 1) f r capRank

/-- Models `chess.Board.fen()`: the six space-separated FEN fields, the en-passant
field rendered only when a legal en-passant capture exists. -/
def Board.fen (b : Board) : String :=
  placementFen b.placement ++ " "
    ++ (match b.turn with | .white => "w" | .black => "b") ++ " "
    ++ castlingFen b ++ " "
    ++ (match b.epSquare with
        | some (f, r) => if hasLegalEp b then squareName f r else "-"
        | none => "-")
    ++ " " ++ toString b.halfmove ++ " " ++ toString b.fullmove

/-- Class `Stats`: the three outcome counters (Python integers). -/
structure Stats where
  white : Int
  draws : Int
  black : Int
deriving DecidableEq, Repr

/-- Constructor `Stats.__init__`: all counters start at zero. -/
def Stats.start : Stats := ⟨0, 0, 0⟩

/-- Method `Stats.add`: bump the bucket selected by the result token; anything
other than `1-0` and `0-1` falls into the final `else` branch and is
counted as a draw. -/
def Stats.add (s : Stats) (result : String) : Stats :=
  if result = "1-0" then { s with white := s.white + 1 }
  else if result = "0-1" then { s with black := s.black + 1 }
  else { s with draws := s.draws + 1 }

/-- The `Stats.count` property: derived sum of the three buckets. -/
def Stats.count (s : Stats) : Int := s.white + s.draws + s.black

/-- The dictionary shape printed by the query path. -/
structure OutcomeDict where
  count : Int
  white : Int
  draw : Int
  black : Int
deriving DecidableEq, Repr

/-- Method `Stats.to_dict`. -/
def Stats.to_dict (s : Stats) : OutcomeDict :=
  ⟨s.count, s.white, s.draws, s.black⟩

/-- Python `str.strip()`: drop leading and trailing whitespace. -/
def pyStrip (s : String) : String :=
  String.mk (((s.data.dropWhile Char.isWhitespace).reverse.dropWhile
    Char.isWhitespace).reverse)

/-- Accumulator loop behind `str.split()`: cut at whitespace runs. -/
def splitWsAux : List Char → List Char → List String
  | [], [] => []
  | [], acc => [String.mk acc.reverse]
  | c :: cs, acc =>
    if c.isWhitespace then
      match acc with
      | [] => splitWsAux cs []
      | _ => String.mk acc.reverse :: splitWsAux cs []
    else splitWsAux cs (c :: acc)

/-- Python `str.split()` with no separator: split on whitespace runs, no empty
tokens. -/
def pySplit (s : String) : List String :=
  splitWsAux s.data []

/-- Function `parse_game`: strip and split the line on whitespace; no tokens means
no game, otherwise the last token is the result and the rest the moves. -/
def parse_game (line : String) : Option (List String × String) :=
  let parts := pySplit (pyStrip line)
  match parts.reverse with
  | [] => none
  | r :: restRev => some (restRev.reverse, r)

/-- The aggregation mapping: insertion-ordered association list modelling
the Python `dict` inside the `defaultdict(Stats)`. -/
abbrev Index := List (String × Stats)

/-- Lookup `dict.get`: the stored value, if the key is present. -/
def idxFind : Index → String → Option Stats
  | [], _ => none
  | e :: rest, k => if e.1 = k then some e.2 else idxFind rest k

/-- Zero-defaulted view of the mapping (an absent key reads as fresh
`Stats`, exactly what `defaultdict` would hand out). -/
def idxStat (i : Index) (k : String) : Stats :=
  (idxFind i k).getD Stats.start

/-- Update `stats[fen].add(result)` on a `defaultdict(Stats)`: bump the stored
entry if the key is present, otherwise insert a fresh zero `Stats` at the
end (Python dicts are insertion-ordered) and bump that. -/
def ddAdd (i : Index) (k : String) (result : String) : Index :=
  match i with
  | [] => [(k, Stats.start.add result)]
  | e :: rest =>
    if e.1 = k then (e.1, e.2.add result) :: rest
    else e :: ddAdd rest k result

/-- The per-move loop of `build_index`: push each token onto the board and
record the position after it; an illegal token is the uncaught exception
from `push_san`, aborting the whole build. -/
def replayMoves (b : Board) (idx : Index) (moves : List String)
    (result : String) : Except Unit Index :=
  match moves with
  | [] => .ok idx
  | san :: rest =>
    match pushSan b san with
    | none => .error ()
    | some b' => replayMoves b' (ddAdd idx b'.fen result) rest result

/-- One game of `build_index`: record the starting position, then replay
the move tokens. -/
def processGame (idx : Index) (moves : List String)
    (result : String) : Except Unit Index :=
  replayMoves Board.init (ddAdd idx Board.init.fen result) moves result

/-- One decoded line of `build_index`: strip it, skip it when blank or
when `parse_game` yields no game, otherwise process the game. -/
def processLine (idx : Index) (line : String) : Except Unit Index :=
  let l := pyStrip line
  if l = "" then .ok idx
  else
    match parse_game l with
    | none => .ok idx
    | some (moves, result) => processGame idx moves result

/-- The line loop of `build_index`, threading one cumulative mapping. -/
def buildFrom (idx : Index) : List String → Except Unit Index
  | [] => .ok idx
  | line :: rest =>
    match processLine idx line with
    | .error e => .error e
    | .ok idx' => buildFrom idx' rest

/-- Aggregation of `build_index` over the decoded lines of all source
files, in order, starting from the empty mapping. -/
def buildLines (lines : List String) : Except Unit Index :=
  buildFrom [] lines

/-- One token of the pickle stream. -/
inductive PTok where
  | str : String → PTok
  | int : Int → PTok
deriving DecidableEq, Repr

/-- Serialization `pickle.dump` of `dict(stats)`: each entry serialized as its key
followed by the three counter fields, in insertion order. -/
def pickleIndex : Index → List PTok
  | [] => []
  | (k, s) :: rest =>
    .str k :: .int s.white :: .int s.draws :: .int s.black :: pickleIndex rest

/-- Deserialization `pickle.load`: parse the stream back into the dict; `none` models the
exception raised by a corrupt stream. -/
def unpickleIndex : List PTok → Option Index
  | [] => some []
  | .str k :: .int w :: .int d :: .int b :: rest =>
    (unpickleIndex rest).map (fun i => (k, ⟨w, d, b⟩) :: i)
  | _ => none

/-- A file-system operation performed by the persistence path. -/
inductive FsOp where
  | openTruncate : String → FsOp
  | writeAll : String → List PTok → FsOp
  | rename : String → String → FsOp
deriving DecidableEq, Repr

/-- Lines 67-68 of `build_index`: `open(out_file, "wb")` truncates the
destination in place, then `pickle.dump` writes the serialized mapping
into it — no temporary file and no rename. -/
def savePlan (dest : String) (payload : List PTok) : List FsOp :=
  [.openTruncate dest, .writeAll dest payload]

/-- File-system contents: path to file contents, `none` when absent. -/
abbrev Fs := String → Option (List PTok)

def applyOp (fs : Fs) : FsOp → Fs
  | .openTruncate p => fun q => if q = p then some [] else fs q
  | .writeAll p data =>
    fun q => if q = p then (fs p).map (fun old => old ++ data) else fs q
  | .rename src dst =>
    fun q => if q = dst then fs src else if q = src then none else fs q

/-- Run a list of file-system operations; a crash exposes the state after
some prefix of them. -/
def runOps (fs : Fs) (ops : List FsOp) : Fs :=
  ops.foldl applyOp fs

/-- The whole `build_index`: aggregate all lines of all files, then emit
the save operations for the output path. -/
def build_index (pgns : List (List String)) (out_file : String) :
    Except Unit (Index × List FsOp) :=
  (buildLines pgns.flatten).map (fun i =>
    (i, savePlan out_file (pickleIndex i)))

/-- Function `query_index`: unpickle the index file, `dict.get` the FEN; a present
`Stats` object is truthy, so it is printed via `to_dict`, and an absent key
prints the literal all-zero dictionary. -/
def query_index (file : List PTok) (fen : String) : Option OutcomeDict :=
  (unpickleIndex file).map (fun data =>
    match idxFind data fen with
    | some s => s.to_dict
    | none => ⟨0, 0, 0, 0⟩)

/-! ### Proof-layer helpers: the additive structure of the counters and a
delta characterization of the aggregation loop. -/

instance : Zero Stats := ⟨Stats.start⟩

instance : Add Stats :=
  ⟨fun a b => ⟨a.white + b.white, a.draws + b.draws, a.black + b.black⟩⟩

theorem Stats.zero_def : (0 : Stats) = ⟨0, 0, 0⟩ := rfl

theorem Stats.add_def (a b : Stats) :
    a + b = ⟨a.white + b.white, a.draws + b.draws, a.black + b.black⟩ := rfl

theorem Stats.eq_of {a b : Stats} (h1 : a.white = b.white)
    (h2 : a.draws = b.draws) (h3 : a.black = b.black) : a = b := by
  cases a; cases b; simp_all

instance : AddCommMonoid Stats where
  add_assoc a b c := by
    apply Stats.eq_of <;> simp [Stats.add_def] <;> ring
  zero_add a := by
    apply Stats.eq_of <;> simp [Stats.add_def, Stats.zero_def]
  add_zero a := by
    apply Stats.eq_of <;> simp [Stats.add_def, Stats.zero_def]
  add_comm a b := by
    apply Stats.eq_of <;> simp [Stats.add_def] <;> ring
  nsmul := nsmulRec

/-- Adding via `Stats.add` is translation by the unit bump of the result bucket. -/
theorem Stats.add_eq_sum (s : Stats) (r : String) :
    s.add r = s + Stats.start.add r := by
  unfold Stats.add
  split
  · apply Stats.eq_of <;> simp [Stats.add_def, Stats.start]
  · split
    · apply Stats.eq_of <;> simp [Stats.add_def, Stats.start]
    · apply Stats.eq_of <;> simp [Stats.add_def, Stats.start]

/-- Scale: `n` copies of the same bump. -/
def statScale (n : Nat) (s : Stats) : Stats :=
  ⟨n * s.white, n * s.draws, n * s.black⟩

theorem statScale_zero (s : Stats) : statScale 0 s = 0 := by
  apply Stats.eq_of <;> simp [statScale, Stats.zero_def]

theorem statScale_succ (n : Nat) (s : Stats) :
    statScale (n + 1) s = s + statScale n s := by
  apply Stats.eq_of <;> simp [statScale, Stats.add_def] <;> ring

/-- Sequential replay of a token list from a board, `none` at the first
illegal token (`board.push_san` raising). -/
def boardAfter : Board → List String → Option Board
  | b, [] => some b
  | b, san :: rest =>
    match pushSan b san with
    | none => none
    | some b' => boardAfter b' rest

/-- Do all tokens of the game replay legally from `b`? -/
def replayOk (b : Board) : List String → Bool
  | [] => true
  | san :: rest =>
    match pushSan b san with
    | none => false
    | some b' => replayOk b' rest

/-- The identifiers emitted after each successful push, truncated at the
first illegal token. -/
def replayFens (b : Board) : List String → List String
  | [] => []
  | san :: rest =>
    match pushSan b san with
    | none => []
    | some b' => b'.fen :: replayFens b' rest

/-- All identifiers a game visits: the starting position followed by the
position after each move. -/
def gameFens (moves : List String) : List String :=
  Board.init.fen :: replayFens Board.init moves

/-- Does processing the line avoid the uncaught `push_san` exception
(blank and no-game lines are skipped, hence fine)? -/
def lineOk (line : String) : Bool :=
  let l := pyStrip line
  if l = "" then true
  else
    match parse_game l with
    | none => true
    | some (m, _) => replayOk Board.init m

/-- The contribution of a visited-identifier list with result `r` to the
counters of key `x`. -/
def fensDelta (fens : List String) (r : String) (x : String) : Stats :=
  (fens.map (fun f => if f = x then Stats.start.add r else 0)).sum

/-- The contribution of one corpus line to the counters of key `x`. -/
def lineDelta (line : String) (x : String) : Stats :=
  let l := pyStrip line
  if l = "" then 0
  else
    match parse_game l with
    | none => 0
    | some (m, r) => fensDelta (gameFens m) r x

/-- The contribution of a list of corpus lines to the counters of `x`. -/
def linesDelta (lines : List String) (x : String) : Stats :=
  (lines.map (fun l => lineDelta l x)).sum

/-- The aggregate a corpus assigns to key `x`, when the build succeeds. -/
def buildStat (lines : List String) (x : String) : Option Stats :=
  (buildLines lines).toOption.map (fun i => idxStat i x)

/-- The file system with no files. -/
def emptyFs : Fs := fun _ => none

theorem fensDelta_nil (r x : String) : fensDelta [] r x = 0 := rfl

theorem fensDelta_cons (f : String) (fs : List String) (r x : String) :
    fensDelta (f :: fs) r x
      = (if f = x then Stats.start.add r else 0) + fensDelta fs r x := by
  simp [fensDelta]

theorem linesDelta_nil (x : String) : linesDelta [] x = 0 := rfl

theorem linesDelta_cons (l : String) (rest : List String) (x : String) :
    linesDelta (l :: rest) x = lineDelta l x + linesDelta rest x := by
  simp [linesDelta]

theorem linesDelta_append (l1 l2 : List String) (x : String) :
    linesDelta (l1 ++ l2) x = linesDelta l1 x + linesDelta l2 x := by
  simp [linesDelta]

theorem linesDelta_perm {l1 l2 : List String} (h : l1.Perm l2) (x : String) :
    linesDelta l1 x = linesDelta l2 x :=
  (h.map (fun l => lineDelta l x)).sum_eq

theorem idxStat_ddAdd (i : Index) (k r x : String) :
    idxStat (ddAdd i k r) x
      = if k = x then (idxStat i x).add r else idxStat i x := by
  induction i with
  | nil =>
    by_cases h : k = x <;> simp [ddAdd, idxStat, idxFind, h]
  | cons e rest ih =>
    by_cases hek : e.1 = k
    · by_cases hkx : k = x
      · subst hkx
        simp [ddAdd, hek, idxStat, idxFind]
      · have hex : e.1 ≠ x := fun h => hkx (hek ▸ h)
        simp [ddAdd, hek, idxStat, idxFind, hex, hkx]
    · by_cases hex : e.1 = x
      · have hkx : k ≠ x := fun h => hek (h ▸ hex)
        have hxk : ¬x = k := fun h => hkx h.symm
        simp [ddAdd, hek, idxStat, idxFind, hex, hkx, hxk]
      · by_cases hkx : k = x <;>
          simpa [ddAdd, hek, idxStat, idxFind, hex, hkx] using ih

theorem idxStat_foldl_ddAdd (fens : List String) (r : String) :
    ∀ (idx : Index) (x : String),
    idxStat (fens.foldl (fun i f => ddAdd i f r) idx) x
      = idxStat idx x + fensDelta fens r x := by
  induction fens with
  | nil => intro idx x; simp [fensDelta_nil]
  | cons f fs ih =>
    intro idx x
    rw [List.foldl_cons, ih, idxStat_ddAdd, fensDelta_cons]
    by_cases h : f = x
    · rw [if_pos h, if_pos h, Stats.add_eq_sum, add_assoc]
    · rw [if_neg h, if_neg h, zero_add]

theorem replayMoves_ok (moves : List String) :
    ∀ (b : Board) (idx : Index) (r : String), replayOk b moves = true →
    replayMoves b idx moves r
      = .ok ((replayFens b moves).foldl (fun i f => ddAdd i f r) idx) := by
  induction moves with
  | nil => intro b idx r _; rfl
  | cons san rest ih =>
    intro b idx r h
    cases hp : pushSan b san with
    | none => rw [replayOk, hp] at h; cases h
    | some b' =>
      rw [replayOk, hp] at h
      rw [replayMoves, hp, replayFens, hp, List.foldl_cons]
      exact ih b' _ r h

theorem replayMoves_err (moves : List String) :
    ∀ (b : Board) (idx : Index) (r : String), replayOk b moves = false →
    replayMoves b idx moves r = .error () := by
  induction moves with
  | nil => intro b idx r h; cases h
  | cons san rest ih =>
    intro b idx r h
    cases hp : pushSan b san with
    | none => rw [replayMoves, hp]
    | some b' =>
      rw [replayOk, hp] at h
      rw [replayMoves, hp]
      exact ih b' _ r h

theorem replayFens_length (moves : List String) :
    ∀ b : Board, replayOk b moves = true →
    (replayFens b moves).length = moves.length := by
  induction moves with
  | nil => intro b _; rfl
  | cons san rest ih =>
    intro b h
    cases hp : pushSan b san with
    | none => rw [replayOk, hp] at h; cases h
    | some b' =>
      rw [replayOk, hp] at h
      rw [replayFens, hp, List.length_cons, List.length_cons, ih b' h]

theorem processGame_ok (moves : List String) (r : String) (idx : Index)
    (h : replayOk Board.init moves = true) :
    processGame idx moves r
      = .ok ((gameFens moves).foldl (fun i f => ddAdd i f r) idx) := by
  rw [processGame, gameFens, List.foldl_cons]
  exact replayMoves_ok moves Board.init _ r h

theorem processGame_err (moves : List String) (r : String) (idx : Index)
    (h : replayOk Board.init moves = false) :
    processGame idx moves r = .error () :=
  replayMoves_err moves Board.init _ r h

theorem processLine_ok (line : String) (idx : Index)
    (h : lineOk line = true) :
    ∃ i', processLine idx line = .ok i'
      ∧ ∀ x, idxStat i' x = idxStat idx x + lineDelta line x := by
  rw [lineOk] at h
  rw [processLine]
  by_cases hb : pyStrip line = ""
  · rw [if_pos hb]
    refine ⟨idx, rfl, fun x => ?_⟩
    rw [lineDelta, if_pos hb, add_zero]
  · rw [if_neg hb] at h ⊢
    cases hpg : parse_game (pyStrip line) with
    | none =>
      refine ⟨idx, rfl, fun x => ?_⟩
      simp [lineDelta, hb, hpg]
    | some mr =>
      obtain ⟨m, r⟩ := mr
      rw [hpg] at h
      refine ⟨_, processGame_ok m r idx h, fun x => ?_⟩
      rw [idxStat_foldl_ddAdd]
      simp [lineDelta, hb, hpg]

theorem processLine_err (line : String) (idx : Index)
    (h : lineOk line = false) :
    processLine idx line = .error () := by
  rw [lineOk] at h
  rw [processLine]
  by_cases hb : pyStrip line = ""
  · rw [if_pos hb] at h; cases h
  · rw [if_neg hb] at h ⊢
    cases hpg : parse_game (pyStrip line) with
    | none => rw [hpg] at h; cases h
    | some mr =>
      obtain ⟨m, r⟩ := mr
      rw [hpg] at h
      exact processGame_err m r idx h

theorem buildFrom_ok (lines : List String) :
    ∀ idx : Index, (∀ l ∈ lines, lineOk l = true) →
    ∃ i, buildFrom idx lines = .ok i
      ∧ ∀ x, idxStat i x = idxStat idx x + linesDelta lines x := by
  induction lines with
  | nil =>
    intro idx _
    exact ⟨idx, rfl, fun x => by rw [linesDelta_nil, add_zero]⟩
  | cons line rest ih =>
    intro idx h
    obtain ⟨i1, h1, hs1⟩ :=
      processLine_ok line idx (h line (List.mem_cons_self line rest))
    obtain ⟨i, h2, hs2⟩ :=
      ih i1 (fun l hl => h l (List.mem_cons_of_mem line hl))
    refine ⟨i, ?_, fun x => ?_⟩
    · rw [buildFrom, h1]
      exact h2
    · rw [hs2 x, hs1 x, linesDelta_cons, add_assoc]

theorem buildFrom_err (lines : List String) :
    ∀ (idx : Index) (line : String), line ∈ lines → lineOk line = false →
    buildFrom idx lines = .error () := by
  induction lines with
  | nil => intro idx line h; cases h
  | cons hd rest ih =>
    intro idx line hmem hbad
    rcases List.mem_cons.mp hmem with heq | hmem'
    · subst heq
      rw [buildFrom, processLine_err line idx hbad]
    · cases hph : processLine idx hd with
      | error e => rw [buildFrom, hph]
      | ok i1 =>
        rw [buildFrom, hph]
        exact ih i1 line hmem' hbad

theorem buildFrom_ok_of_mem (lines : List String) :
    ∀ (idx : Index) (i : Index), buildFrom idx lines = .ok i →
    ∀ l ∈ lines, lineOk l = true := by
  induction lines with
  | nil => intro idx i _ l hl; cases hl
  | cons hd rest ih =>
    intro idx i hok l hl
    cases hph : processLine idx hd with
    | error e =>
      rw [buildFrom, hph] at hok
      cases hok
    | ok i1 =>
      rw [buildFrom, hph] at hok
      rcases List.mem_cons.mp hl with heq | hmem'
      · subst heq
        by_cases hlo : lineOk l = true
        · exact hlo
        · rw [processLine_err l idx (Bool.eq_false_iff.mpr hlo)] at hph
          cases hph
      · exact ih i1 i hok l hmem'

/-- The aggregate of a successful build is exactly the sum of the per-line
deltas, key by key. -/
theorem buildLines_stat (lines : List String) (i : Index)
    (h : buildLines lines = .ok i) :
    ∀ x, idxStat i x = linesDelta lines x := by
  intro x
  obtain ⟨i', h', hs⟩ :=
    buildFrom_ok lines [] (buildFrom_ok_of_mem lines [] i h)
  rw [buildLines] at h
  rw [h] at h'
  cases h'
  rw [hs x]
  rw [show idxStat [] x = 0 from rfl, zero_add]

instance {e a : Type} [DecidableEq e] [DecidableEq a] :
    DecidableEq (Except e a) := fun u v =>
  match u, v with
  | .ok x, .ok y =>
    if h : x = y then isTrue (by rw [h])
    else isFalse (fun hh => h (by cases hh; rfl))
  | .ok _, .error _ => isFalse (fun hh => by cases hh)
  | .error _, .ok _ => isFalse (fun hh => by cases hh)
  | .error x, .error y =>
    if h : x = y then isTrue (by rw [h])
    else isFalse (fun hh => h (by cases hh; rfl))

theorem gameFens_length (moves : List String)
    (h : replayOk Board.init moves = true) :
    (gameFens moves).length = moves.length + 1 := by
  rw [gameFens, List.length_cons, replayFens_length moves Board.init h]

theorem fensDelta_eq_scale (fens : List String) (r x : String) :
    fensDelta fens r x = statScale (fens.count x) (Stats.start.add r) := by
  induction fens with
  | nil => rw [fensDelta_nil, List.count_nil, statScale_zero]
  | cons f fs ih =>
    rw [fensDelta_cons, ih, List.count_cons]
    by_cases h : f = x
    · subst h
      simp [statScale_succ, add_comm]
    · have hxf : ¬(x == f) = true := by
        simp [beq_iff_eq]
        exact fun hh => h hh.symm
      simp [hxf, h]

theorem unpickle_pickle (i : Index) :
    unpickleIndex (pickleIndex i) = some i := by
  induction i with
  | nil => rfl
  | cons e rest ih =>
    obtain ⟨k, s⟩ := e
    simp [pickleIndex, unpickleIndex, ih]

/-- All three counters are non-negative. -/
def statNonneg (s : Stats) : Prop :=
  0 ≤ s.white ∧ 0 ≤ s.draws ∧ 0 ≤ s.black

instance (s : Stats) : Decidable (statNonneg s) := by
  rw [statNonneg]; infer_instance

theorem statNonneg_zero : statNonneg 0 := by
  refine ⟨le_refl 0, le_refl 0, le_refl 0⟩

theorem statNonneg_add {a b : Stats} (ha : statNonneg a)
    (hb : statNonneg b) : statNonneg (a + b) :=
  ⟨add_nonneg ha.1 hb.1, add_nonneg ha.2.1 hb.2.1, add_nonneg ha.2.2 hb.2.2⟩

theorem statNonneg_unit (r : String) : statNonneg (Stats.start.add r) := by
  unfold Stats.add
  repeat' split
  all_goals simp [statNonneg, Stats.start]

theorem statNonneg_addResult (s : Stats) (r : String)
    (h : statNonneg s) : statNonneg (s.add r) := by
  rw [Stats.add_eq_sum]
  exact statNonneg_add h (statNonneg_unit r)

theorem statNonneg_fensDelta (fens : List String) (r x : String) :
    statNonneg (fensDelta fens r x) := by
  induction fens with
  | nil => exact statNonneg_zero
  | cons f fs ih =>
    rw [fensDelta_cons]
    have hhead : statNonneg (if f = x then Stats.start.add r else 0) := by
      by_cases h : f = x
      · rw [if_pos h]; exact statNonneg_unit r
      · rw [if_neg h]; exact statNonneg_zero
    exact statNonneg_add hhead ih

theorem statNonneg_lineDelta (line x : String) :
    statNonneg (lineDelta line x) := by
  rw [lineDelta]
  by_cases hb : pyStrip line = ""
  · rw [if_pos hb]; exact statNonneg_zero
  · rw [if_neg hb]
    cases hpg : parse_game (pyStrip line) with
    | none => exact statNonneg_zero
    | some mr =>
      obtain ⟨m, r⟩ := mr
      exact statNonneg_fensDelta (gameFens m) r x

theorem statNonneg_linesDelta (lines : List String) (x : String) :
    statNonneg (linesDelta lines x) := by
  induction lines with
  | nil => exact statNonneg_zero
  | cons l rest ih =>
    rw [linesDelta_cons]
    exact statNonneg_add (statNonneg_lineDelta l x) ih

/-- The counter-free part of a board state: piece placement, side to
move, castling rights and en-passant square — exactly the fields the
specification's Canonical Position Identifier is to consist of, with the
halfmove clock and fullmove number left out. -/
structure PosIdentity where
  placement : Placement
  turn : Color
  castleWK : Bool
  castleWQ : Bool
  castleBK : Bool
  castleBQ : Bool
  epSquare : Option (Nat × Nat)
deriving DecidableEq, Repr

def Board.identity (b : Board) : PosIdentity :=
  ⟨b.placement, b.turn, b.castleWK, b.castleWQ, b.castleBK, b.castleBQ,
    b.epSquare⟩

/-- C1: the two move sequences `[]` and `[Nf3, Nf6, Ng1, Ng8]` replay to
the identical board state — piece placement, side to move, castling
rights, en-passant target — yet `build_index` keys them by the full FEN,
whose halfmove-clock and fullmove-number fields differ (`0 1` versus
`4 3`), so their results are accumulated under two distinct identifiers
instead of one counter-free identifier. -/
theorem identifier_counters_c1 :
    (boardAfter Board.init ["Nf3", "Nf6", "Ng1", "Ng8"]).map Board.identity
      = some Board.init.identity
    ∧ Board.init.fen
        = "rnbqkbnr/pppppppp/8/8/8/8/PPPPPPPP/RNBQKBNR w KQkq - 0 1"
    ∧ (boardAfter Board.init ["Nf3", "Nf6", "Ng1", "Ng8"]).map Board.fen
        = some "rnbqkbnr/pppppppp/8/8/8/8/PPPPPPPP/RNBQKBNR w KQkq - 4 3"
    ∧ buildStat ["Nf3 Nf6 Ng1 Ng8 1-0"]
        "rnbqkbnr/pppppppp/8/8/8/8/PPPPPPPP/RNBQKBNR w KQkq - 0 1"
        = some ⟨1, 0, 0⟩
    ∧ buildStat ["Nf3 Nf6 Ng1 Ng8 1-0"]
        "rnbqkbnr/pppppppp/8/8/8/8/PPPPPPPP/RNBQKBNR w KQkq - 4 3"
        = some ⟨1, 0, 0⟩
    ∧ ("rnbqkbnr/pppppppp/8/8/8/8/PPPPPPPP/RNBQKBNR w KQkq - 0 1" : String)
        ≠ "rnbqkbnr/pppppppp/8/8/8/8/PPPPPPPP/RNBQKBNR w KQkq - 4 3" := by
  decide

/-- C2 counterexample: a game whose second token is illegal makes the
whole build return the uncaught exception — the run crashes, the later
game is not processed, and no index is written. -/
theorem illegal_move_crash_c2_cex :
    buildLines ["e4 e4 0-1", "d4 1-0"] = .error ()
      ∧ build_index [["e4 e4 0-1", "d4 1-0"]] "index.pkl" = .error () := by
  decide

/-- C2 amended: a move token that is not a legal move from the position
reached so far raises out of `build_index`: the entire ingest run aborts
with the exception, no further games are processed, and no index file is
written (the in-memory increments from earlier positions are lost with
the process). -/
theorem illegal_move_crash_c2 :
    ∀ (pgns : List (List String)) (out : String) (line : String),
    line ∈ pgns.flatten → lineOk line = false →
    build_index pgns out = .error () := by
  intro pgns out line hmem hbad
  rw [build_index, buildLines, buildFrom_err pgns.flatten [] line hmem hbad]
  rfl

/-- C2 witness: the amended theorem at a concrete corpus. -/
theorem illegal_move_crash_c2_witness :
    build_index [["e4 e4 0-1"], ["d4 1-0"]] "index.pkl" = .error () :=
  illegal_move_crash_c2 [["e4 e4 0-1"], ["d4 1-0"]] "index.pkl" "e4 e4 0-1"
    (by decide) (by decide)

/-- C3 counterexample: a game with the unknown result `*` does change a
bucket — the draws bucket of every visited position, here the starting
position, goes up by one, and so does `count`. -/
theorem unknown_result_c3_cex :
    buildStat ["e4 *"] Board.init.fen = some ⟨0, 1, 0⟩
      ∧ Stats.mk 0 1 0 ≠ Stats.start
      ∧ (Stats.mk 0 1 0).count = 1 := by
  decide

/-- C3 amended: any result token other than `1-0` and `0-1` — including
the unknown result `*` — falls into the final `else` branch of
`Stats.add` and increments the draws bucket, raising `count` by one. -/
theorem unknown_result_c3 :
    ∀ (s : Stats) (r : String), r ≠ "1-0" → r ≠ "0-1" →
    s.add r = { s with draws := s.draws + 1 }
      ∧ (s.add r).count = s.count + 1 := by
  intro s r h1 h2
  rw [Stats.add, if_neg h1, if_neg h2]
  refine ⟨rfl, ?_⟩
  simp [Stats.count]
  ring

/-- C3 witness: the amended theorem at the unknown result `*`. -/
theorem unknown_result_c3_witness :
    Stats.start.add "*" = { Stats.start with draws := Stats.start.draws + 1 }
      ∧ (Stats.start.add "*").count = Stats.start.count + 1 :=
  unknown_result_c3 Stats.start "*" (by decide) (by decide)

/-- C4 counterexample: the save path of `build_index` operates directly
on the destination — it truncates `index.pkl` and then writes the
serialized mapping into it, with no temporary location and no rename —
so a crash between the two operations leaves an empty truncated file
observable at the destination, although the index it was saving is
non-empty. -/
theorem save_atomicity_c4_cex :
    savePlan "index.pkl" (pickleIndex [("k", ⟨1, 2, 3⟩)])
      = [FsOp.openTruncate "index.pkl",
          FsOp.writeAll "index.pkl" (pickleIndex [("k", ⟨1, 2, 3⟩)])]
    ∧ runOps emptyFs
        ((savePlan "index.pkl" (pickleIndex [("k", ⟨1, 2, 3⟩)])).take 1)
        "index.pkl" = some []
    ∧ pickleIndex [("k", ⟨1, 2, 3⟩)] ≠ [] := by
  decide

/-- C4 amended: `save` writes the pickle directly to the destination
path: it performs no rename and touches no temporary location, a
completed save leaves the full serialization at the destination and
every other path untouched, and a crash between the truncating open and
the write leaves an empty partial file observable at the destination. -/
theorem save_atomicity_c4 :
    ∀ (dest : String) (payload : List PTok) (fs : Fs),
    runOps fs (savePlan dest payload)
        = (fun q => if q = dest then some payload else fs q)
      ∧ runOps fs ((savePlan dest payload).take 1) dest = some []
      ∧ (savePlan dest payload).all
          (fun op => match op with | .rename _ _ => false | _ => true)
          = true := by
  intro dest payload fs
  refine ⟨?_, ?_, rfl⟩
  · funext q
    show applyOp (applyOp fs (.openTruncate dest)) (.writeAll dest payload) q
      = _
    by_cases h : q = dest <;> simp [applyOp, h]
  · show applyOp fs (.openTruncate dest) dest = some []
    simp [applyOp]

/-- C5 counterexample: the line `e4 e5` has no result field, yet it is
not skipped: `parse_game` takes the final move token `e5` as the result,
and the build then increments the draws bucket of the starting position
(and of the position after `e4`), so the line does contribute
increments. -/
theorem structural_skip_c5_cex :
    parse_game "e4 e5" = some (["e4"], "e5")
      ∧ buildStat ["e4 e5"] Board.init.fen = some ⟨0, 1, 0⟩
      ∧ Stats.mk 0 1 0 ≠ Stats.start := by
  decide

/-- C5 amended: a blank line is silently skipped and contributes no
increment, but a line missing its result field is not detected: its last
token is taken as the result token and the preceding tokens are replayed
as moves, contributing increments like any game — `e4 e5` yields the
moves `[e4]` with "result" `e5`, bumping the draws bucket of the
starting position and of the position after `e4`. -/
theorem structural_skip_c5 :
    (∀ (line : String) (idx : Index), pyStrip line = "" →
      processLine idx line = .ok idx)
    ∧ parse_game "e4 e5" = some (["e4"], "e5")
    ∧ processLine [] "e4 e5" = .ok
        [("rnbqkbnr/pppppppp/8/8/8/8/PPPPPPPP/RNBQKBNR w KQkq - 0 1",
            ⟨0, 1, 0⟩),
          ("rnbqkbnr/pppppppp/8/8/4P3/8/PPPP1PPP/RNBQKBNR b KQkq - 0 1",
            ⟨0, 1, 0⟩)] := by
  refine ⟨?_, by decide, by decide⟩
  intro line idx h
  rw [processLine]
  simp [h]

/-- C5 witness: the blank-line part of the amended theorem at the empty
line. -/
theorem structural_skip_c5_witness :
    processLine ([] : Index) "" = .ok ([] : Index) :=
  structural_skip_c5.1 "" [] (by decide)

/-- C6: for a game whose tokens all replay legally, `build_index` visits
`len(moves) + 1` identifiers — the starting position, then the position
after each move — and bumps the bucket of the game's result once per
occurrence of a key in that visit list; in particular the game
`e4 e5 1-0` produces exactly three entries — the initial position, after
`1.e4`, and after `1.e4 e5` — each with a white count of one. -/
theorem build_visits_c6 :
    (∀ (moves : List String) (result : String) (idx : Index),
      replayOk Board.init moves = true →
      (gameFens moves).length = moves.length + 1
        ∧ ∃ i', processGame idx moves result = .ok i'
            ∧ ∀ x, idxStat i' x
                = idxStat idx x
                  + statScale ((gameFens moves).count x)
                      (Stats.start.add result))
    ∧ processGame [] ["e4", "e5"] "1-0" = .ok
        [("rnbqkbnr/pppppppp/8/8/8/8/PPPPPPPP/RNBQKBNR w KQkq - 0 1",
            ⟨1, 0, 0⟩),
          ("rnbqkbnr/pppppppp/8/8/4P3/8/PPPP1PPP/RNBQKBNR b KQkq - 0 1",
            ⟨1, 0, 0⟩),
          ("rnbqkbnr/pppp1ppp/8/4p3/4P3/8/PPPP1PPP/RNBQKBNR w KQkq - 0 2",
            ⟨1, 0, 0⟩)] := by
  refine ⟨?_, by decide⟩
  intro m r idx h
  refine ⟨gameFens_length m h, _, processGame_ok m r idx h, fun x => ?_⟩
  rw [idxStat_foldl_ddAdd, fensDelta_eq_scale]

/-- C6 witness: the universal part of the theorem at the game
`e4 e5 1-0` from the empty mapping. -/
theorem build_visits_c6_witness :
    (gameFens ["e4", "e5"]).length = ["e4", "e5"].length + 1
      ∧ ∃ i', processGame [] ["e4", "e5"] "1-0" = .ok i'
          ∧ ∀ x, idxStat i' x
              = idxStat [] x
                + statScale ((gameFens ["e4", "e5"]).count x)
                    (Stats.start.add "1-0") :=
  build_visits_c6.1 ["e4", "e5"] "1-0" [] (by decide)

/-- C7: looking up a key that is absent from a saved index does not
fail: the query path loads the pickled mapping and prints the literal
all-zero dictionary. -/
theorem query_missing_c7 :
    ∀ (i : Index) (fen : String), idxFind i fen = none →
    query_index (pickleIndex i) fen = some ⟨0, 0, 0, 0⟩ := by
  intro i fen h
  simp [query_index, unpickle_pickle, h]

/-- C7 witness: the theorem at a one-entry index and an absent key. -/
theorem query_missing_c7_witness :
    query_index (pickleIndex [("a", ⟨1, 2, 3⟩)]) "b" = some ⟨0, 0, 0, 0⟩ :=
  query_missing_c7 [("a", ⟨1, 2, 3⟩)] "b" (by decide)

/-- C8: persisting a mapping with the pickle save and loading it back
yields the very same mapping, entry for entry. -/
theorem roundtrip_c8 :
    ∀ i : Index, i ≠ [] → unpickleIndex (pickleIndex i) = some i :=
  fun i _ => unpickle_pickle i

/-- C8 witness: the theorem at a concrete two-entry index. -/
theorem roundtrip_c8_witness :
    unpickleIndex (pickleIndex [("a", ⟨1, 2, 3⟩), ("b", ⟨4, 0, 5⟩)])
      = some [("a", ⟨1, 2, 3⟩), ("b", ⟨4, 0, 5⟩)] :=
  roundtrip_c8 [("a", ⟨1, 2, 3⟩), ("b", ⟨4, 0, 5⟩)] (by decide)

/-- C9: building from any interleaving of two line sets and building the
two sets separately then summing bucket-wise agree on every key —
aggregation is a commutative, associative multiset sum. -/
theorem build_merge_c9 :
    ∀ (l1 l2 l : List String) (i : Index),
    l.Perm (l1 ++ l2) → buildLines l = .ok i →
    ∃ i1 i2, buildLines l1 = .ok i1 ∧ buildLines l2 = .ok i2
      ∧ ∀ x, idxStat i x = idxStat i1 x + idxStat i2 x := by
  intro l1 l2 l i hperm hok
  have hall : ∀ ln ∈ l, lineOk ln = true := buildFrom_ok_of_mem l [] i hok
  have hall12 : ∀ ln ∈ l1 ++ l2, lineOk ln = true :=
    fun ln h => hall ln (hperm.mem_iff.mpr h)
  obtain ⟨i1, h1, hs1⟩ :=
    buildFrom_ok l1 [] (fun ln h => hall12 ln (List.mem_append_left l2 h))
  obtain ⟨i2, h2, hs2⟩ :=
    buildFrom_ok l2 [] (fun ln h => hall12 ln (List.mem_append_right l1 h))
  refine ⟨i1, i2, h1, h2, fun x => ?_⟩
  rw [buildLines_stat l i hok x, linesDelta_perm hperm x, linesDelta_append,
    hs1 x, hs2 x]
  rw [show idxStat [] x = 0 from rfl, zero_add, zero_add]

/-- C9 witness: the theorem at a two-line corpus split into its two
lines, presented in the opposite order. -/
theorem build_merge_c9_witness :
    ∃ i1 i2, buildLines ["e4 1-0"] = .ok i1
      ∧ buildLines ["d4 0-1"] = .ok i2
      ∧ ∀ x, idxStat ((buildLines ["d4 0-1", "e4 1-0"]).toOption.getD []) x
          = idxStat i1 x + idxStat i2 x :=
  build_merge_c9 ["e4 1-0"] ["d4 0-1"] ["d4 0-1", "e4 1-0"]
    ((buildLines ["d4 0-1", "e4 1-0"]).toOption.getD []) (by decide)
    (by decide)

/-- C10: the three buckets are non-negative and `count` is their sum;
`Stats.add` preserves the invariant, and every triple readable from a
successful build satisfies it. -/
theorem stats_invariant_c10 :
    (∀ (s : Stats) (r : String), statNonneg s →
      statNonneg (s.add r)
        ∧ (s.add r).count
            = (s.add r).white + (s.add r).draws + (s.add r).black)
    ∧ ∀ (lines : List String) (i : Index), buildLines lines = .ok i →
      ∀ x, statNonneg (idxStat i x)
        ∧ (idxStat i x).count
            = (idxStat i x).white + (idxStat i x).draws + (idxStat i x).black
    := by
  constructor
  · intro s r hs
    exact ⟨statNonneg_addResult s r hs, rfl⟩
  · intro lines i hok x
    refine ⟨?_, rfl⟩
    rw [buildLines_stat lines i hok x]
    exact statNonneg_linesDelta lines x

/-- C10 witness: both parts of the theorem at concrete inputs — the
zero triple with the unknown result, and the one-game corpus `e4 1-0`
at the starting position. -/
theorem stats_invariant_c10_witness :
    (statNonneg (Stats.start.add "*")
        ∧ (Stats.start.add "*").count
            = (Stats.start.add "*").white + (Stats.start.add "*").draws
              + (Stats.start.add "*").black)
      ∧ statNonneg
          (idxStat ((buildLines ["e4 1-0"]).toOption.getD [])
            Board.init.fen) :=
  ⟨stats_invariant_c10.1 Stats.start "*" (by decide),
    (stats_invariant_c10.2 ["e4 1-0"]
      ((buildLines ["e4 1-0"]).toOption.getD []) (by decide)
      Board.init.fen).1⟩
